import Mathlib

/-!
Verification of the Mikado locus-resolution core against its specification.

This file gives a shallow embedding, in Lean 4, of the parts of the Mikado
repository that the verified claims are about:

* `loci_objects/transcript.py` — the `transcript` class: `addExon`,
  `finalize`, `load_orfs`, `split_by_cds`, the `overlap` /
  `is_overlapping_cds` class methods and the `end_distance_from_tes` metric;
* `Mikado/loci_objects/superlocus.py` — the `Superlocus.is_intersecting`
  sublocus predicate and the alternative-splicing candidate selection of
  `Superlocus.define_alternative_splicing`.

Python integers are modelled as `Int`, Python lists as `List`, Python's
stable `sorted` as `List.insertionSort` with the corresponding key order,
and code that can raise as functions into `Except`.  Error constructors are
named after the Python exception that the corresponding `raise` (or implicit
runtime error) would produce.
-/

deriving instance DecidableEq for Except

/-- Genomic strand: Python's `"+"` / `"-"`.  Python's `None` strand is
modelled as `Option Strand = none`. -/
inductive Strand
  | plus
  | minus
deriving DecidableEq, Repr

/-- Closed 1-based interval, as the `(start, end)` duples used throughout
`transcript.py`. -/
abbrev Iv := Int × Int

/-- Kind tag of a segment of an internal ORF: the first component of the
tuples `("exon"|"CDS"|"UTR", start, end)` built by `transcript.finalize` and
`transcript.load_orfs`. -/
inductive SegKind
  | CDS
  | UTR
  | exon
deriving DecidableEq, Repr

/-- Rank giving the Python string order of the kind tags:
`"CDS" < "UTR" < "exon"` (uppercase sorts before lowercase in ASCII). -/
def SegKind.rank : SegKind → Nat
  | .CDS => 0
  | .UTR => 1
  | .exon => 2

/-- Segment of an internal ORF: `(kind, start, end)`. -/
abbrev Segment := SegKind × Int × Int

/-- Lexicographic order on intervals, the key `operator.itemgetter(0,1)`
used by `sorted` in `transcript.py`. -/
def ivLe (a b : Iv) : Prop :=
  a.1 < b.1 ∨ (a.1 = b.1 ∧ a.2 ≤ b.2)

instance : DecidableRel ivLe := fun a b => by
  unfold ivLe; infer_instance

instance : IsTotal Iv ivLe where
  total a b := by unfold ivLe; omega

instance : IsTrans Iv ivLe where
  trans a b c := by unfold ivLe; omega

/-- Python `sorted(key=operator.itemgetter(0,1))` on a list of duples
(`sorted` is a stable sort, as is insertion sort). -/
def sortIv (l : List Iv) : List Iv := List.insertionSort ivLe l

/-- Order on segments with key `operator.itemgetter(1,2,0)` — by start, then
end, then the kind string — used by `finalize` to sort the segments of the
single internal ORF. -/
def segLe120 (a b : Segment) : Prop :=
  a.2.1 < b.2.1 ∨ (a.2.1 = b.2.1 ∧ (a.2.2 < b.2.2 ∨ (a.2.2 = b.2.2 ∧ a.1.rank ≤ b.1.rank)))

instance : DecidableRel segLe120 := fun a b => by
  unfold segLe120; infer_instance

/-- Order on segments with key `operator.itemgetter(1,2)` — by start then
end — used by `load_orfs` and `split_by_cds` (a stable sort keeps the
relative order of equal keys). -/
def segLe12 (a b : Segment) : Prop :=
  a.2.1 < b.2.1 ∨ (a.2.1 = b.2.1 ∧ a.2.2 ≤ b.2.2)

instance : DecidableRel segLe12 := fun a b => by
  unfold segLe12; infer_instance

/-- Python `sorted(key=operator.itemgetter(1,2,0))` on segments. -/
def sortSeg120 (l : List Segment) : List Segment := List.insertionSort segLe120 l

/-- Python `sorted(key=operator.itemgetter(1,2))` on segments. -/
def sortSeg12 (l : List Segment) : List Segment := List.insertionSort segLe12 l

/-- Candidate open reading frame, one row of the serialised BED12 `orf`
table consumed by `transcript.load_orfs` (`thickStart` / `thickEnd` are
1-based inclusive transcript coordinates).  `orf_id` models the database
primary key: Python compares the ORM objects by identity, and distinct rows
are distinct objects. -/
structure Orf where
  orf_id : Nat := 0
  thickStart : Int := 1
  thickEnd : Int := 1
  cds_len : Int := 0
  strand : Option Strand := none
  has_start_codon : Bool := false
  has_stop_codon : Bool := false
deriving DecidableEq, Repr

instance : Inhabited Orf := ⟨{}⟩

/-- High-scoring segment pair of a BLAST hit (`blast_utils.Hsp`), as read by
`transcript.split_by_cds`. -/
structure Hsp where
  query_hsp_start : Int := 0
  query_hsp_end : Int := 0
  hsp_evalue : Rat := 0
deriving DecidableEq, Repr

/-- BLAST hit (`blast_utils.Hit`), as read by `transcript.split_by_cds`. -/
structure Hit where
  query_start : Int := 0
  query_end : Int := 0
  evalue : Rat := 0
  target : String := ""
  hsps : List Hsp := []
deriving DecidableEq, Repr

/-- The `transcript` class of `loci_objects/transcript.py`, restricted to
the attributes read or written by the embedded methods.  Default values are
the ones set by `transcript.__init__` on a blank instance
(`self.__class__()`). -/
structure Transcript where
  id : String := ""
  chrom : String := ""
  source : String := ""
  feature : String := "transcript"
  start : Int := 0
  end_ : Int := 0
  score : Option Int := none
  strand : Option Strand := none
  parent : List String := []
  attributes : List (String × String) := []
  exons : List Iv := []
  combined_cds : List Iv := []
  combined_utr : List Iv := []
  introns : List Iv := []
  splices : List Int := []
  internal_orfs : List (List Segment) := []
  selected_internal_orf_index : Option Nat := none
  has_start_codon : Bool := false
  has_stop_codon : Bool := false
  finalized : Bool := false
  loaded_bed12 : List Orf := []
  blast_hits : List Hit := []
deriving DecidableEq, Repr

namespace Transcript

/-- Sum of the lengths `end - start + 1` of a list of intervals, as in the
list comprehensions of the length metrics. -/
def ivsum (l : List Iv) : Int := (l.map (fun p => p.2 - p.1 + 1)).sum

/-- Metric `transcript.cdna_length`: `sum(e[1]-e[0]+1 for e in self.exons)`. -/
def cdna_length (t : Transcript) : Int := ivsum t.exons

/-- Metric `transcript.combined_cds_length`. -/
def combined_cds_length (t : Transcript) : Int := ivsum t.combined_cds

/-- Metric `transcript.combined_utr_length`. -/
def combined_utr_length (t : Transcript) : Int := ivsum t.combined_utr

/-- Property `transcript.monoexonic`: `len(self.exons) == 1`. -/
def monoexonic (t : Transcript) : Bool := t.exons.length == 1

/-- Metric `transcript.number_internal_orfs`: `len(self.internal_orfs)`. -/
def number_internal_orfs (t : Transcript) : Nat := t.internal_orfs.length

end Transcript

/-- The ways the embedded methods of `transcript.py` can raise.  The
constructors carrying no payload name the Python exception class; the
`invalid…` constructors are the `InvalidTranscript` raises of `finalize`,
distinguished by the check that fails. -/
inductive PyErr
  | invalidNoExons
  | invalidMultiexonicNoStrand
  | invalidUtrWithoutCds
  | invalidLengthMismatch
  | invalidExtentMismatch
  | invalidOverlappingExons
  | invalidNoFlankingOrf
  | invalidUnknownFeature
  | invalidExonParentMismatch
  | typeErrorNoneIndex
  | typeErrorNoneSet
  | modificationError
  | unboundLocalError
  | attributeError
  | assertionError
  | valueError
  | indexError
deriving DecidableEq, Repr

namespace Transcript

/-- The intron/splice construction loop of `finalize` (lines 368–375): for
each pair of consecutive sorted exons it raises `InvalidTranscript` when
`exonA[1] >= exonB[0]` (overlapping exons) and otherwise records the intron
`(exonA[1]+1, exonB[0]-1)`. -/
def buildIntrons : List Iv → Except PyErr (List Iv)
  | [] => .ok []
  | [_] => .ok []
  | a :: b :: rest =>
    if b.1 ≤ a.2 then .error .invalidOverlappingExons
    else
      match buildIntrons (b :: rest) with
      | .error e => .error e
      | .ok tail => .ok ((a.2 + 1, b.1 - 1) :: tail)

/-- Splice sites: `finalize` extends `splices` with both endpoints of each
intron, in order. -/
def splicesOf (introns : List Iv) : List Int :=
  introns.foldr (fun i acc => i.1 :: i.2 :: acc) []

/-- Method `transcript.finalize` (lines 328–406).  A faithful transcription:
the checks are performed in source order, and on success the returned
transcript carries the sorted exons/CDS/UTR, the derived introns and splice
sites, the inferred codon flags, the single internal ORF (the typed segment
list sorted by `(start, end, kind)`), the selected ORF index, and the
`mRNA` feature when a CDS is present.  The final `_ = self.selected_internal_orf`
of the source sets the index to 0 when there is no CDS and otherwise indexes
`internal_orfs` with it, raising `TypeError` when the index is still `None`. -/
def finalize (t : Transcript) : Except PyErr Transcript :=
  if t.finalized then .ok t
  else if t.exons.length = 0 then .error .invalidNoExons
  else if 1 < t.exons.length ∧ t.strand = none then .error .invalidMultiexonicNoStrand
  else if t.combined_utr ≠ [] ∧ t.combined_cds = [] then .error .invalidUtrWithoutCds
  else if ¬ ((t.combined_cds_length = 0 ∧ t.combined_utr_length = 0) ∨
      t.cdna_length = t.combined_utr_length + t.combined_cds_length) then
    .error .invalidLengthMismatch
  else
    let exons := sortIv t.exons
    if exons.head?.map Prod.fst ≠ some t.start ∨ exons.getLast?.map Prod.snd ≠ some t.end_ then
      .error .invalidExtentMismatch
    else
      match buildIntrons exons with
      | .error e => .error e
      | .ok introns =>
        let cds := sortIv t.combined_cds
        let utr := sortIv t.combined_utr
        let headLt : Prop := utr ≠ [] ∧ (utr.headD (0, 0)).1 < (cds.headD (0, 0)).1
        let lastGt : Prop := utr ≠ [] ∧ (cds.getLastD (0, 0)).2 < (utr.getLastD (0, 0)).2
        let hasStart := t.has_start_codon
          || (decide headLt && decide (t.strand = some .plus))
          || (decide lastGt && decide (t.strand = some .minus))
        let hasStop := t.has_stop_codon
          || (decide headLt && decide (t.strand = some .minus))
          || (decide lastGt && decide (t.strand = some .plus))
        let segments := sortSeg120
          ((exons.map (fun e => ((SegKind.exon, e.1, e.2) : Segment)))
            ++ (cds.map (fun c => ((SegKind.CDS, c.1, c.2) : Segment)))
            ++ (utr.map (fun u => ((SegKind.UTR, u.1, u.2) : Segment))))
        let idx : Option Nat :=
          if 0 < ivsum cds then some 0 else t.selected_internal_orf_index
        if cds = [] then
          .ok { t with
            exons := exons, combined_cds := cds, combined_utr := utr,
            introns := introns, splices := splicesOf introns,
            internal_orfs := [segments], selected_internal_orf_index := some 0,
            has_start_codon := hasStart, has_stop_codon := hasStop,
            finalized := true }
        else
          match idx with
          | none => .error .typeErrorNoneIndex
          | some i =>
            .ok { t with
              exons := exons, combined_cds := cds, combined_utr := utr,
              introns := introns, splices := splicesOf introns,
              internal_orfs := [segments], selected_internal_orf_index := some i,
              has_start_codon := hasStart, has_stop_codon := hasStop,
              feature := "mRNA",
              finalized := true }

end Transcript

/-- Class method `transcript.overlap` (lines 884–888): `lend = max(starts)`,
`rend = min(ends)`, result `rend - lend`.  The same formula is the spec's
overlap primitive `min(b,d) − max(a,c)`. -/
def overlap (first second : Iv) : Int :=
  min first.2 second.2 - max first.1 second.1

/-- Class method `transcript.is_overlapping_cds` (lines 868–874): false when
the two ORFs are the same object, lie on different strands, or their
`(thickStart, thickEnd)` intervals have `overlap < 0`; true otherwise. -/
def is_overlapping_cds (first second : Orf) : Bool :=
  if first = second ∨ first.strand ≠ second.strand ∨
      overlap (first.thickStart, first.thickEnd) (second.thickStart, second.thickEnd) < 0 then
    false
  else
    true

/-- Modelled from the spec: `abstractlocus.find_communities` is imported by
`transcript.py` but `loci_objects/abstractlocus.py` is not under `src/`.
Per §4.4 of the spec, given objects and a symmetric predicate it builds the
undirected graph whose edges join objects satisfying the predicate and
returns its connected components.  `closureStep` adds to a component every
object adjacent to it; iterating it `|objs|` times reaches the fixpoint. -/
def closureStep [DecidableEq α] (inters : α → α → Bool) (objs comp : List α) : List α :=
  comp ++ objs.filter (fun x =>
    decide (x ∉ comp) && comp.any (fun y => inters x y || inters y x))

/-- Modelled from the spec: iterated closure, see `closureStep`. -/
def closureIter [DecidableEq α] (inters : α → α → Bool) (objs : List α) :
    Nat → List α → List α
  | 0, comp => comp
  | n + 1, comp => closureIter inters objs n (closureStep inters objs comp)

/-- Modelled from the spec: connected components of the graph on `objs`
with edge predicate `inters` (see `closureStep`); each object is assigned to
the component grown from the first of its members in list order. -/
def find_communities [DecidableEq α] (objs : List α) (inters : α → α → Bool) :
    List (List α) :=
  (objs.foldl
    (fun (acc : List (List α) × List α) x =>
      if x ∈ acc.2 then acc
      else
        let comp := closureIter inters objs objs.length [x]
        (acc.1 ++ [comp], acc.2 ++ comp))
    ([], [])).1

/-- Class method `transcript.find_overlapping_cds` (lines 859–865): the
communities of the candidate ORFs under `is_overlapping_cds`. -/
def find_overlapping_cds (candidates : List Orf) : List (List Orf) :=
  find_communities candidates is_overlapping_cds

namespace Transcript

/-- Property `transcript.combined_cds_introns`, as consumed by the sublocus
predicate.  Modelled from the spec: `Superlocus.is_intersecting` reads it
off `Mikado.loci_objects.transcript.Transcript`, which is not under `src/`;
per the spec a CDS intron is an intron of the transcript located between
consecutive combined-CDS segments (this also mirrors the same-named
property of `loci_objects/transcript.py`, minus its internal assertion). -/
def combined_cds_introns (t : Transcript) : List Iv :=
  if t.combined_cds.length < 2 then []
  else
    (t.combined_cds.zip t.combined_cds.tail).filterMap
      (fun fl =>
        let junc : Iv := (fl.1.2 + 1, fl.2.1 - 1)
        if junc ∈ t.introns then some junc else none)

end Transcript

namespace Superlocus

/-- Class method `Superlocus.is_intersecting` of
`Mikado/loci_objects/superlocus.py` (lines 790–844), the sublocus
predicate.  The source first calls `finalize()` on both transcripts (a
no-op for finalized transcripts, the only ones this predicate is applied
to) and returns `False` on equal ids; two multiexonic transcripts intersect
iff they share an intron (a combined-CDS intron in `cds_only` mode), two
monoexonic ones iff they share a boundary or have positive overlap, and a
mixed pair never intersects. -/
def is_intersecting (transcript other : Transcript) (cds_only : Bool) : Bool :=
  if transcript.id == other.id then false
  else if transcript.monoexonic = false ∧ other.monoexonic = false then
    let intersection :=
      if cds_only = false then
        transcript.introns.filter (fun i => decide (i ∈ other.introns))
      else
        (transcript.combined_cds_introns).filter
          (fun i => decide (i ∈ other.combined_cds_introns))
    decide (0 < intersection.length)
  else if transcript.monoexonic = true ∧ other.monoexonic = true then
    if transcript.start == other.start || transcript.end_ == other.end_ then true
    else decide (0 < overlap (transcript.start, transcript.end_) (other.start, other.end_))
  else
    false

end Superlocus

/-- Configuration subtree (`json_dict`) read by the embedded methods:
`orf_loading.minimal_secondary_orf_length`, `orf_loading.trust_strand`,
`chimera_split.blast_check`, `chimera_split.minimal_hsp_overlap`,
`chimera_split.maximal_hsp_evalue`. -/
structure JsonConf where
  minimal_secondary_orf_length : Int := 0
  trust_strand : Bool := false
  blast_check : Bool := false
  minimal_hsp_overlap : Rat := 0
  maximal_hsp_evalue : Rat := 10
deriving DecidableEq, Repr

/-- Python's substring containment `pat in s`, as a decidable infix test on
the character lists. -/
def strContains (s pat : String) : Bool :=
  decide (pat.toList.IsInfix s.toList)

/-- A GFF/GTF record as consumed by `transcript.addExon`: the feature kind,
the coordinates and the parent list. -/
structure GffRecord where
  feature : String := "exon"
  start : Int := 0
  end_ : Int := 0
  parent : List String := []
deriving DecidableEq, Repr

namespace Transcript

/-- Method `transcript.addExon` (lines 299–326).  On error the returned
`PyErr × Transcript` pair also records the state of the object when the
exception escapes (Python mutations performed before a `raise` persist).
The `stop_codon` branch of the source sets `has_stop_codon` but, unlike the
`start_codon` branch, does not `return`: control falls through to
`store.append` with the local variable `store` never assigned, raising
`UnboundLocalError` after the flag has been set. -/
def addExon (t : Transcript) (g : GffRecord) : Except (PyErr × Transcript) Transcript :=
  if t.finalized then .error (.modificationError, t)
  else if t.id ∉ g.parent then .error (.invalidExonParentMismatch, t)
  else
    let seg : Iv := (min g.start g.end_, max g.start g.end_)
    if g.feature = "CDS" then .ok { t with combined_cds := t.combined_cds ++ [seg] }
    else if (strContains g.feature "combined_utr" ∨ strContains g.feature "UTR") then
      .ok { t with combined_utr := t.combined_utr ++ [seg] }
    else if g.feature = "exon" then .ok { t with exons := t.exons ++ [seg] }
    else if g.feature = "start_codon" then .ok { t with has_start_codon := true }
    else if g.feature = "stop_codon" then
      .error (.unboundLocalError, { t with has_stop_codon := true })
    else .error (.invalidUnknownFeature, t)

end Transcript

namespace Transcript

/-- Python `sorted(..., reverse=True, key=operator.attrgetter("cds_len"))`
and the SQL `order_by(desc(orf.cds_len))`: stable descending sort of ORFs by
CDS length. -/
def orfSortDesc (l : List Orf) : List Orf :=
  List.insertionSort (fun a b => b.cds_len ≤ a.cds_len) l

/-- Lines 529–531 of `load_orfs`: negative-strand candidate ORFs are dropped
for multiexonic transcripts, and for monoexonic ones when `trust_strand` is
set. -/
def strandFilter (t : Transcript) (conf : JsonConf) (cands : List Orf) : List Orf :=
  if t.monoexonic = false ∨ (t.monoexonic = true ∧ conf.trust_strand = true) then
    cands.filter (fun o => decide (o.strand ≠ some Strand.minus))
  else cands

/-- Lines 533–536 of `load_orfs`: one representative per community of
overlapping ORFs, the one of greatest `cds_len`
(`sorted(clique, reverse=True, key=attrgetter("cds_len"))[0]`). -/
def communityReps (cands : List Orf) : List Orf :=
  (find_overlapping_cds cands).map (fun clique => (orfSortDesc clique).headD default)

/-- Lines 538–542 of `load_orfs`: the first (longest-CDS) representative is
always kept; later representatives are kept only when
`cds_len > minimal_secondary_orf_length` (strict comparison in the source). -/
def retain_candidates (new_orfs : List Orf) (minimal_secondary_orf_length : Int) : List Orf :=
  match new_orfs with
  | [] => []
  | first :: rest =>
    first :: rest.filter (fun o => decide (minimal_secondary_orf_length < o.cds_len))

/-- Steps 5–8 of `load_orfs` (lines 528–544): sort candidates by decreasing
CDS length, drop negative-strand ones where applicable, reduce each
community of overlapping ORFs to its longest representative, and apply the
secondary-ORF length threshold. -/
def candidate_selection (t : Transcript) (conf : JsonConf) (orfs : List Orf) : List Orf :=
  retain_candidates (communityReps (strandFilter t conf (orfSortDesc orfs)))
    conf.minimal_secondary_orf_length

/-- State of the per-exon projection loops of `load_orfs`
(lines 572–613): the segments accumulated in `cds_exons` and the running
transcript-coordinate counters `current_start` / `current_end`. -/
structure ProjState where
  segs : List Segment
  cur_start : Int
  cur_end : Int
deriving Repr

/-- One iteration of the `+`-strand projection loop of `load_orfs`
(lines 575–593). -/
def projPlusStep (thickStart thickEnd : Int) (st : ProjState) (e : Iv) : ProjState :=
  let segs := st.segs ++ [((SegKind.exon, e.1, e.2) : Segment)]
  let cur_start := st.cur_start + 1
  let cur_end := st.cur_end + e.2 - e.1 + 1
  let segs :=
    if cur_end < thickStart ∨ thickEnd < cur_start then
      segs ++ [((SegKind.UTR, e.1, e.2) : Segment)]
    else
      let c_start := e.1 + max 0 (thickStart - cur_start)
      let segs := if e.1 < c_start then segs ++ [((SegKind.UTR, e.1, c_start - 1) : Segment)] else segs
      let c_end := e.2 - max 0 (cur_end - thickEnd)
      let segs := if c_start < c_end then segs ++ [((SegKind.CDS, c_start, c_end) : Segment)] else segs
      if c_end < e.2 then segs ++ [((SegKind.UTR, c_end + 1, e.2) : Segment)] else segs
  { segs := segs, cur_start := cur_end, cur_end := cur_end }

/-- One iteration of the `-`-strand projection loop of `load_orfs`
(lines 596–611); note that here the CDS segment is appended without the
`c_start < c_end` guard of the `+` branch. -/
def projMinusStep (thickStart thickEnd : Int) (st : ProjState) (e : Iv) : ProjState :=
  let segs := st.segs ++ [((SegKind.exon, e.1, e.2) : Segment)]
  let cur_start := st.cur_start + 1
  let cur_end := st.cur_end + e.2 - e.1 + 1
  let segs :=
    if cur_end < thickStart ∨ thickEnd < cur_start then
      segs ++ [((SegKind.UTR, e.1, e.2) : Segment)]
    else
      let c_end := e.2 - max 0 (thickStart - cur_start)
      let segs := if c_end < e.2 then segs ++ [((SegKind.UTR, c_end + 1, e.2) : Segment)] else segs
      let c_start := e.1 + max 0 (cur_end - thickEnd)
      let segs := segs ++ [((SegKind.CDS, c_start, c_end) : Segment)]
      if e.1 < c_start then segs ++ [((SegKind.UTR, e.1, c_start - 1) : Segment)] else segs
  { segs := segs, cur_start := cur_end, cur_end := cur_end }

/-- The `cds_exons` list built by `load_orfs` for one ORF: the `+` branch
walks the exons in sorted order, the `-` branch in reverse sorted order; a
transcript whose strand is still `None` enters neither branch and yields an
empty list. -/
def cds_exons_of (strand : Option Strand) (exons : List Iv) (o : Orf) : List Segment :=
  match strand with
  | some .plus => ((sortIv exons).foldl (projPlusStep o.thickStart o.thickEnd) ⟨[], 0, 0⟩).segs
  | some .minus =>
    ((sortIv exons).reverse.foldl (projMinusStep o.thickStart o.thickEnd) ⟨[], 0, 0⟩).segs
  | none => []

/-- Strand flip of lines 566–569 (also `transcript.reverse_strand`). -/
def reverse_strand : Option Strand → Option Strand
  | some .plus => some .minus
  | some .minus => some .plus
  | none => none

/-- State threaded through the ORF loop of `load_orfs` (lines 548–613).
`new_strand` models the Python local variable of the same name:
`none` means it has not been assigned yet (reading it then raises
`UnboundLocalError`). -/
structure OrfLoopState where
  strand : Option Strand
  new_strand : Option (Option Strand)
  primary_orf : Bool
  has_start_codon : Bool
  has_stop_codon : Bool
  loaded_bed12 : List Orf
  internal_orfs : List (List Segment)
deriving Repr

/-- Appends one processed ORF to the loop state (lines 571–613): record it
in `loaded_bed12` and add its projected segments, sorted by
`operator.itemgetter(1,2)`, to `internal_orfs`. -/
def orfLoopLoad (exons : List Iv) (st : OrfLoopState) (o : Orf) : OrfLoopState :=
  { st with loaded_bed12 := st.loaded_bed12 ++ [o],
            internal_orfs := st.internal_orfs ++ [sortSeg12 (cds_exons_of st.strand exons o)] }

/-- One iteration of the ORF loop of `load_orfs` (lines 548–613): adopt the
codon flags from the first candidate, skip ORFs whose `thickStart`/`thickEnd`
fall outside the cDNA, adopt the ORF strand when the transcript has none,
and on a `-`-strand ORF assert monoexonicity, skip it when it contradicts
`new_strand`, and otherwise flip the transcript strand; surviving ORFs are
projected onto the exons. -/
def orf_loop_step (exons : List Iv) (cdna : Int) (mono : Bool) (st : OrfLoopState) (o : Orf) :
    Except PyErr OrfLoopState :=
  let st :=
    if st.primary_orf then
      { st with has_start_codon := o.has_start_codon, has_stop_codon := o.has_stop_codon }
    else st
  if ¬ (1 ≤ o.thickStart ∧ o.thickEnd ≤ cdna) then .ok st
  else
    let st :=
      if st.strand = none then { st with strand := o.strand, new_strand := some o.strand }
      else st
    let st := { st with primary_orf := false }
    if st.strand = none then
      let st := { st with strand := o.strand, new_strand := some o.strand }
      .ok (orfLoopLoad exons st o)
    else if o.strand = some Strand.minus then
      if mono = false then .error .assertionError
      else
        match st.new_strand with
        | none => .error .unboundLocalError
        | some ns =>
          if ns ≠ none ∧ o.strand ≠ ns then .ok st
          else
            let st := { st with strand := reverse_strand st.strand }
            .ok (orfLoopLoad exons st o)
    else .ok (orfLoopLoad exons st o)

/-- The ORF loop of `load_orfs` run over all retained candidates, folding
the resulting state back into the transcript. -/
def orf_loop (t : Transcript) (cands : List Orf) : Except PyErr Transcript :=
  match List.foldlM (orf_loop_step t.exons t.cdna_length t.monoexonic)
      ({ strand := t.strand, new_strand := none, primary_orf := true,
         has_start_codon := t.has_start_codon, has_stop_codon := t.has_stop_codon,
         loaded_bed12 := t.loaded_bed12, internal_orfs := t.internal_orfs } : OrfLoopState)
      cands with
  | .error e => .error e
  | .ok st =>
    .ok { t with strand := st.strand, has_start_codon := st.has_start_codon,
                 has_stop_codon := st.has_stop_codon, loaded_bed12 := st.loaded_bed12,
                 internal_orfs := st.internal_orfs }

/-- The `(start, end)` pairs of the segments of one kind inside a segment
list, e.g. `[(a[1],a[2]) for a in filter(lambda x: x[0]=="CDS", ...)]`. -/
def segPairs (l : List Segment) (k : SegKind) : List Iv :=
  (l.filter (fun s => decide (s.1 = k))).map (fun s => (s.2.1, s.2.2))

/-- Class method `transcript.is_intersecting` (lines 878–882), applied by
`load_orfs` to CDS-span tuples: false on the same tuple or negative
overlap, true otherwise. -/
def is_intersecting (first second : Iv) : Bool :=
  if first = second ∨ overlap first second < 0 then false else true

/-- Class method `transcript.find_communities` (lines 895–898): communities
of interval tuples under `transcript.is_intersecting`. -/
def find_communities_iv (objs : List Iv) : List (List Iv) :=
  find_communities objs Transcript.is_intersecting

/-- Span `(min starts, max ends)` of a non-empty community of CDS tuples
(lines 638–640). -/
def spanOf : List Iv → Iv
  | [] => (0, 0)
  | x :: xs => (xs.foldl (fun m p => min m p.1) x.1, xs.foldl (fun m p => max m p.2) x.2)

/-- List of the integer positions of a closed interval (`range(a, b+1)`). -/
def posRange (iv : Iv) : List Int :=
  (List.range (iv.2 + 1 - iv.1).toNat).map (fun k => iv.1 + k)

/-- Lines 648–651 of `load_orfs`: the sorted set difference between the
exonic positions and the combined-CDS positions. -/
def utr_positions (exons cds : List Iv) : List Int :=
  List.insertionSort (fun a b => a ≤ b)
    (((exons.map posRange).flatten).dedup.filter
      (fun p => ¬ cds.any (fun c => decide (c.1 ≤ p) && decide (p ≤ c.2))))

/-- Lines 652–663 of `load_orfs`: coalesce a sorted list of UTR positions
into maximal contiguous segments. -/
def coalesceSegments (positions : List Int) : List Iv :=
  let acc := positions.foldl
    (fun (acc : List Iv × Option Iv) pos =>
      match acc.2 with
      | none => (acc.1, some (pos, pos))
      | some cur =>
        if pos = cur.2 + 1 then (acc.1, some (cur.1, pos))
        else (acc.1 ++ [cur], some (pos, pos)))
    ([], none)
  match acc.2 with
  | none => acc.1
  | some cur => acc.1 ++ [cur]

/-- Lines 615–665 of `load_orfs`: with a single retained ORF the combined
CDS/UTR are read off its segments; with several, the combined CDS is the
set of spans of the communities of overlapping CDS tuples and the combined
UTR is the coalesced position-set difference, followed by the length
assertion. -/
def assemble_combined (t : Transcript) : Except PyErr Transcript :=
  if t.internal_orfs.length = 1 then
    .ok { t with combined_cds := sortIv (segPairs (t.internal_orfs.headD []) SegKind.CDS),
                 combined_utr := sortIv (segPairs (t.internal_orfs.headD []) SegKind.UTR) }
  else if 1 < t.internal_orfs.length then
    let cand := ((t.internal_orfs.map (fun orf => segPairs orf SegKind.CDS)).flatten).dedup
    let spans := (find_communities_iv cand).map spanOf
    let ccds := sortIv spans
    let cutr := t.combined_utr ++ coalesceSegments (utr_positions t.exons ccds)
    let t1 := { t with combined_cds := ccds, combined_utr := cutr }
    if t1.cdna_length ≠ t1.combined_cds_length + t1.combined_utr_length then
      .error .assertionError
    else .ok t1
  else .ok t

/-- Lines 522–526 of `load_orfs`: once candidate ORFs are known to exist,
the annotation-derived `combined_utr`, `combined_cds` and `internal_orfs`
are discarded and the transcript is de-finalized (`self.loaded_bed12 = []`
follows at line 546). -/
def clear_cds (t : Transcript) : Transcript :=
  { t with combined_utr := [], combined_cds := [], internal_orfs := [],
           finalized := false, loaded_bed12 := [] }

/-- Method `transcript.load_orfs` (lines 483–672).  The database lookup is
abstracted into the `orfs` argument: the two early returns on empty query
results become the `orfs.isEmpty` test.  Otherwise the annotation CDS/UTR
and the internal ORFs are cleared, the candidates are selected and
projected, the combined CDS/UTR are reassembled, and — when no ORF was
retained — `finalize` is re-run on the cleared transcript; when at least
one ORF was retained the transcript is marked finalized with feature
`mRNA`. -/
def load_orfs (t : Transcript) (conf : JsonConf) (orfs : List Orf) : Except PyErr Transcript :=
  match t.finalize with
  | .error e => .error e
  | .ok t0 =>
    if orfs.isEmpty then .ok t0
    else
      let t1 := clear_cds t0
      let cands := candidate_selection t1 conf orfs
      match orf_loop t1 cands with
      | .error e => .error e
      | .ok t2 =>
        match assemble_combined t2 with
        | .error e => .error e
        | .ok t3 =>
          if t3.internal_orfs = [] then t3.finalize
          else .ok { t3 with feature := "mRNA", finalized := true }

end Transcript

namespace Transcript

/-- Property `transcript.combined_cds_end` (lines 1128–1140). -/
def combined_cds_end (t : Transcript) : Int :=
  if t.combined_cds.length = 0 then
    (if t.strand = some Strand.plus then t.end_ else t.start)
  else if t.strand = some Strand.minus then (t.combined_cds.headD (0, 0)).1
  else (t.combined_cds.getLastD (0, 0)).2

/-- Metric `transcript.end_distance_from_tes` (lines 1473–1489), as written
in the source: both the `if` and the `elif` branch test `strand == "-"`, so
the `elif` is dead code; with a CDS and strand `+` (or no strand) the
function returns 0 without entering any loop, and with strand `-` the first
loop iteration evaluates `self.cds_end`, an attribute that does not exist,
raising `AttributeError` (when there are exons; an exon-less transcript
never enters the loop body). -/
def end_distance_from_tes (t : Transcript) : Except PyErr Int :=
  if t.combined_cds.length = 0 then .ok 0
  else if t.strand = some Strand.minus then
    match t.exons with
    | [] => .ok 0
    | _ :: _ => .error .attributeError
  else if t.strand = some Strand.minus then
    match t.exons with
    | [] => .ok 0
    | _ :: _ => .error .attributeError
  else .ok 0

/-- Accumulation helper for `end_distance_from_tes_spec`, strand `+`: walk
the exons from the transcript end, adding `exon_end + 1 − max(cds_end,
exon_start)` and stopping once the combined-CDS end is reached. -/
def endDistPlusGo (cdsEnd : Int) : List Iv → Int
  | [] => 0
  | e :: rest =>
    let d := e.2 + 1 - max cdsEnd e.1
    if cdsEnd ≥ e.1 then d else d + endDistPlusGo cdsEnd rest

/-- Accumulation helper for `end_distance_from_tes_spec`, strand `-`: walk
the exons from the transcript start, adding `min(exon_end, cds_end) −
exon_start + 1` and stopping once the combined-CDS end is reached. -/
def endDistMinusGo (cdsEnd : Int) : List Iv → Int
  | [] => 0
  | e :: rest =>
    let d := min e.2 cdsEnd - e.1 + 1
    if cdsEnd ≤ e.2 then d else d + endDistMinusGo cdsEnd rest

/-- Modelled from the spec: the intended `end_distance_from_tes`, which the
source does not implement (§9 of the spec: "the source contains apparent
bugs (e.g., `end_distance_from_tes` checks `strand == '-'` in both
branches). An implementer should derive the correct forward/reverse
distance from first principles: for strand `+`, accumulate exon lengths
from the end until the CDS end position is crossed; for strand `−`,
symmetrically from the start.").  The arithmetic mirrors the per-exon
accumulations that the sibling metrics (`selected_start_distance_from_tss`
and the dead `elif` branch itself) use, with `combined_cds_end`. -/
def end_distance_from_tes_spec (t : Transcript) : Int :=
  if t.combined_cds.length = 0 then 0
  else if t.strand = some Strand.plus then
    endDistPlusGo t.combined_cds_end t.exons.reverse
  else if t.strand = some Strand.minus then
    endDistMinusGo t.combined_cds_end t.exons
  else 0

/-- Whether an HSP of a hit overlaps some ORF boundary by at least
`minimal_hsp_overlap × cds_length` while passing the e-value ceiling
(lines 737–740 of `split_by_cds`).  In the source a pair satisfying this
executes `cds_hit_dict[cds_run].add(hit.target)` — but
`defaultdict(set).fromkeys(...)` maps every key to `None`, so the `add`
raises `AttributeError`. -/
def hit_marks_boundary (conf : JsonConf) (bounds : List Iv) (hit : Hit) : Bool :=
  (hit.hsps.filter (fun hsp => decide (hsp.hsp_evalue ≤ conf.maximal_hsp_evalue))).any
    (fun hsp =>
      bounds.any (fun run =>
        decide (conf.minimal_hsp_overlap * ((run.2 + 1 - run.1 : Int) : Rat) ≤
          ((overlap run (hsp.query_hsp_start, hsp.query_hsp_end) : Int) : Rat))))

/-- The hit loop of the BLAST check of `split_by_cds` (lines 733–740):
a hit spanning from the first ORF boundary to the last one suppresses the
split (`to_split = False`, `break`); otherwise any qualifying HSP/boundary
pair crashes in `cds_hit_dict[...].add` (see `hit_marks_boundary`); an
empty boundary list makes `cds_boundaries[0]` raise `IndexError`. -/
def blast_loop (conf : JsonConf) (bounds : List Iv) : List Hit → Except PyErr Bool
  | [] => .ok true
  | hit :: rest =>
    match bounds.head?, bounds.getLast? with
    | some b0, some bl =>
      if hit.query_start ≤ b0.1 ∧ bl.2 ≤ hit.query_end then .ok false
      else if hit_marks_boundary conf bounds hit then .error .attributeError
      else blast_loop conf bounds rest
    | _, _ => .error .indexError

/-- The BLAST check of `split_by_cds` (lines 718–747), returning `to_split`.
When the hit loop leaves `to_split` true, the source evaluates
`set.intersection` over all pairs of values of `cds_hit_dict`; those values
are all `None` (`defaultdict(set).fromkeys` maps keys to `None`), so with
two or more distinct boundaries this raises `TypeError`; with fewer there
are no pairs and `to_split` stays true. -/
def blast_check (t : Transcript) (conf : JsonConf) : Except PyErr Bool :=
  let bounds := sortIv (t.loaded_bed12.map (fun o => (o.thickStart, o.thickEnd)))
  match blast_loop conf bounds t.blast_hits with
  | .error e => .error e
  | .ok false => .ok false
  | .ok true =>
    if 2 ≤ bounds.dedup.length then .error .typeErrorNoneSet else .ok true

/-- The `(first CDS start, last CDS end)` boundary of each internal ORF
(lines 749–752 of `split_by_cds`); an ORF without CDS segments makes
`cds[0]` raise `IndexError`. -/
def orf_boundaries_of (t : Transcript) : Except PyErr (List Iv) :=
  t.internal_orfs.mapM (fun orf =>
    let cds := sortSeg12 (orf.filter (fun x => decide (x.1 = SegKind.CDS)))
    match cds.head?, cds.getLast? with
    | some h, some l => .ok ((h.2.1, l.2.2) : Iv)
    | _, _ => .error .indexError)

/-- Accumulator of the flanking-exon clipping loops of `split_by_cds`:
the exons and UTR intervals of the transcript being built, and the CDS
segments that are not full exons (`partials` in the source). -/
structure SplitAcc where
  my_exons : List Iv
  my_utr : List Iv
  leftovers : List Iv
deriving Repr

/-- One iteration of the loop over the exons left of the chosen ORF
(lines 788–811 of `split_by_cds`, the case with ORFs only on the right):
whole exons before the boundary become UTR; an exon touching or straddling
the boundary is clipped against the matching partial CDS segment
(`partials.remove` raises `ValueError` when the element is missing, and the
`assert len(partial)==1` / `assert len(partials)==1` failures raise
`AssertionError`). -/
def splitLeftStep (b : Iv) (acc : SplitAcc) (exon : Iv) : Except PyErr SplitAcc :=
  if exon.2 < b.1 then
    .ok { acc with my_utr := acc.my_utr ++ [exon], my_exons := acc.my_exons ++ [exon] }
  else if exon.2 = b.1 then
    if (exon.2, exon.2) ∈ acc.leftovers then
      .ok { my_exons := acc.my_exons ++ [exon],
            my_utr := acc.my_utr ++ [((exon.1, exon.2 - 1) : Iv)],
            leftovers := acc.leftovers.erase ((exon.2, exon.2) : Iv) }
    else .error .valueError
  else
    if exon.2 ≤ b.2 then
      match acc.leftovers.filter (fun x => decide (x.2 = exon.2)) with
      | [p] =>
        .ok { my_exons := acc.my_exons ++ [exon],
              my_utr := acc.my_utr ++ [((exon.1, p.1 - 1) : Iv)],
              leftovers := acc.leftovers.erase p }
      | _ => .error .assertionError
    else
      match acc.leftovers with
      | [p] =>
        .ok { my_exons := acc.my_exons ++ [((exon.1, p.2) : Iv)],
              my_utr := acc.my_utr ++ [((exon.1, p.1 - 1) : Iv)],
              leftovers := [] }
      | _ => .error .assertionError

/-- One iteration of the loop over the exons right of the chosen ORF
(lines 812–836 of `split_by_cds`, the case with ORFs only on the left);
mirror image of `splitLeftStep`. -/
def splitRightStep (b : Iv) (acc : SplitAcc) (exon : Iv) : Except PyErr SplitAcc :=
  if b.2 < exon.1 then
    .ok { acc with my_utr := acc.my_utr ++ [exon], my_exons := acc.my_exons ++ [exon] }
  else if exon.1 = b.2 then
    if (exon.1, exon.1) ∈ acc.leftovers then
      .ok { my_exons := acc.my_exons ++ [exon],
            my_utr := acc.my_utr ++ [((exon.1 + 1, exon.2) : Iv)],
            leftovers := acc.leftovers.erase ((exon.1, exon.1) : Iv) }
    else .error .valueError
  else
    if b.1 ≤ exon.1 then
      match acc.leftovers.filter (fun x => decide (x.1 = exon.1)) with
      | [p] =>
        .ok { my_exons := acc.my_exons ++ [exon],
              my_utr := acc.my_utr ++ [((p.2 + 1, exon.2) : Iv)],
              leftovers := acc.leftovers.erase p }
      | _ => .error .assertionError
    else
      match acc.leftovers with
      | [p] =>
        .ok { my_exons := acc.my_exons ++ [((p.1, exon.2) : Iv)],
              my_utr := acc.my_utr ++ [((p.2 + 1, exon.2) : Iv)],
              leftovers := [] }
      | _ => .error .assertionError

/-- Construction of one output transcript of `split_by_cds`
(lines 756–846): full-exon CDS segments are kept as exons, flanking exons
are clipped against the neighbouring ORF boundaries into UTR, and the new
transcript — which inherits chromosome, source, score, strand and
attributes, takes its codon flags from the BED12 record, and is named
`<tid>.orfN` — is finalized. -/
def split_one (t : Transcript) (orf_bounds : List Iv) (counter : Nat)
    (orf : List Segment) (bed : Orf) : Except PyErr Transcript :=
  let cds_segments :=
    (sortSeg12 (orf.filter (fun x => decide (x.1 = SegKind.CDS)))).map
      (fun s => ((s.2.1, s.2.2) : Iv))
  if cds_segments = [] then .error .assertionError
  else
    let my_exons0 := sortIv (cds_segments.filter (fun seg => decide (seg ∈ t.exons)))
    let leftovers0 := sortIv (cds_segments.filter (fun seg => decide (seg ∉ t.exons)))
    let b : Iv := ((cds_segments.headD (0, 0)).1, (cds_segments.getLastD (0, 0)).2)
    let other_orfs := orf_bounds.filter (fun x => decide (x ≠ b))
    let left_orfs := other_orfs.filter (fun x => decide (x.2 ≤ b.1))
    let right_orfs := other_orfs.filter (fun x => decide (b.2 ≤ x.1))
    let accE : Except PyErr SplitAcc :=
      if left_orfs = [] ∧ right_orfs = [] then .error .invalidNoFlankingOrf
      else if left_orfs ≠ [] ∧ right_orfs ≠ [] then
        .ok { my_exons := my_exons0 ++ leftovers0, my_utr := [], leftovers := [] }
      else if right_orfs ≠ [] ∧ left_orfs = [] then
        List.foldlM (splitLeftStep b)
          ({ my_exons := my_exons0, my_utr := [], leftovers := leftovers0 } : SplitAcc)
          (t.exons.filter (fun e => decide (e.1 < b.1)))
      else
        List.foldlM (splitRightStep b)
          ({ my_exons := my_exons0, my_utr := [], leftovers := leftovers0 } : SplitAcc)
          (t.exons.filter (fun e => decide (b.2 < e.2)))
    match accE with
    | .error e => .error e
    | .ok acc =>
      let my_exons := sortIv ((acc.my_exons ++ acc.leftovers).dedup)
      let nt : Transcript :=
        { chrom := t.chrom, source := t.source, score := t.score, strand := t.strand,
          attributes := t.attributes,
          has_start_codon := bed.has_start_codon, has_stop_codon := bed.has_stop_codon,
          id := t.id ++ ".orf" ++ toString counter,
          exons := my_exons,
          combined_cds := sortIv cds_segments,
          combined_utr := sortIv acc.my_utr,
          start := (my_exons.headD (0, 0)).1,
          end_ := (my_exons.getLastD (0, 0)).2 }
      nt.finalize

/-- Method `transcript.split_by_cds` (lines 705–849).  With fewer than two
internal ORFs the transcript itself is the only yielded element; with two
or more, the optional BLAST check runs and then one transcript per
`(internal ORF, BED12)` pair is built and finalized.  The final
`assert len(new_transcripts)>0` of the source fails (raising
`AssertionError`) when nothing was produced — in particular when the BLAST
check suppressed the split, since the source never adds `self` back in the
multi-ORF branch. -/
def split_by_cds (t : Transcript) (conf : JsonConf) : Except PyErr (List Transcript) :=
  match t.finalize with
  | .error e => .error e
  | .ok t0 =>
    if t0.number_internal_orfs < 2 then
      let new_transcripts := [t0]
      if new_transcripts.length = 0 then .error .assertionError else .ok new_transcripts
    else
      match (if conf.blast_check then blast_check t0 conf else .ok true) with
      | .error e => .error e
      | .ok to_split =>
        if to_split then
          match orf_boundaries_of t0 with
          | .error e => .error e
          | .ok bounds =>
            let zipper := t0.internal_orfs.zip t0.loaded_bed12
            match zipper.enum.mapM (fun p => split_one t0 bounds (p.1 + 1) p.2.1 p.2.2) with
            | .error e => .error e
            | .ok nts =>
              if nts.length = 0 then .error .assertionError else .ok nts
        else .error .assertionError

end Transcript

namespace Superlocus

/-- Input of the alternative-splicing candidate selection of
`Superlocus.define_alternative_splicing` (lines 704–749): the transcript
ids of the superlocus, the final loci as ordered `(locus id, primary
transcript id)` pairs, and the cliques of the transcript graph built with
the `MonosublocusHolder` predicate. -/
structure ASInput where
  transcripts : List String
  loci : List (String × String)
  cliques : List (List String)
deriving DecidableEq, Repr

/-- Lines 729–737 of `define_alternative_splicing`: `loci_cliques[lid]` is
the set of transcript ids appearing in some clique together with the
locus's primary transcript, the primary itself excluded. -/
def loci_cliques (inp : ASInput) (prim : String) : List String :=
  ((inp.cliques.filter (fun c => decide (prim ∈ c))).map
    (fun c => c.filter (fun tid => decide (tid ≠ prim)))).flatten

/-- The set of primary transcript ids over all loci (line 719). -/
def primary_transcripts (inp : ASInput) : List String := inp.loci.map Prod.snd

/-- Lines 740–741: the loci whose clique set contains the transcript, in
locus order. -/
def loci_in (inp : ASInput) (tid : String) : List String :=
  (inp.loci.filter (fun lp => decide (tid ∈ loci_cliques inp lp.2))).map Prod.fst

/-- Lines 739–743 of `define_alternative_splicing`: a non-primary
transcript is submitted as an alternative-splicing candidate of a locus
exactly when that locus is the only entry of `loci_in`; the result lists
the `(locus id, transcript id)` pairs submitted. -/
def as_candidates (inp : ASInput) : List (String × String) :=
  (inp.transcripts.filter (fun tid => decide (tid ∉ primary_transcripts inp))).filterMap
    (fun tid =>
      match loci_in inp tid with
      | [lid] => some (lid, tid)
      | _ => none)

/-- A transcript shares a clique with a primary transcript: the condition
under which it enters that locus's `loci_cliques` set. -/
def shares_clique (inp : ASInput) (tid prim : String) : Prop :=
  ∃ c ∈ inp.cliques, prim ∈ c ∧ tid ∈ c ∧ tid ≠ prim

instance (inp : ASInput) (tid prim : String) : Decidable (shares_clique inp tid prim) := by
  unfold shares_clique; infer_instance

end Superlocus

namespace Transcript

theorem finalize_of_finalized (t : Transcript) (h : t.finalized = true) :
    finalize t = .ok t := by
  unfold finalize
  simp [h]

theorem ivsum_nil : ivsum [] = 0 := rfl

theorem ivsum_cons (p : Iv) (l : List Iv) :
    ivsum (p :: l) = (p.2 - p.1 + 1) + ivsum l := by
  simp [ivsum]

theorem ivsum_sortIv (l : List Iv) : ivsum (sortIv l) = ivsum l :=
  ((List.perm_insertionSort ivLe l).map _).sum_eq

/-- Telescoping identity for the intron construction: when `buildIntrons`
succeeds, exon lengths and intron lengths add up to the span between the
first exon start and the last exon end. -/
theorem buildIntrons_sum :
    ∀ (l ys : List Iv) (a b : Iv), buildIntrons l = .ok ys →
      l.head? = some a → l.getLast? = some b →
      ivsum l + ivsum ys = b.2 - a.1 + 1
  | [], _, _, _, _, ha, _ => by simp at ha
  | [x], ys, a, b, h, ha, hb => by
    simp only [buildIntrons, Except.ok.injEq] at h
    simp only [List.head?_cons, Option.some.injEq] at ha
    simp only [List.getLast?_singleton, Option.some.injEq] at hb
    subst ha; subst hb; subst h
    simp [ivsum_cons, ivsum_nil]
  | x :: y :: rest, ys, a, b, h, ha, hb => by
    simp only [List.head?_cons, Option.some.injEq] at ha
    subst ha
    rw [List.getLast?_cons_cons] at hb
    unfold buildIntrons at h
    by_cases hxy : y.1 ≤ x.2
    · simp [hxy] at h
    · rw [if_neg hxy] at h
      cases heq : buildIntrons (y :: rest) with
      | error e => rw [heq] at h; exact absurd h (by simp)
      | ok tail =>
        rw [heq] at h
        simp only [Except.ok.injEq] at h
        subst h
        have ih := buildIntrons_sum (y :: rest) tail y b heq rfl hb
        simp [ivsum_cons] at ih ⊢
        omega

/-- Destructuring of a successful `finalize` run on a non-finalized
transcript: the output fields and the facts recorded by the passed checks. -/
theorem finalize_ok_spec (t u : Transcript) (h0 : t.finalized = false)
    (h : finalize t = .ok u) :
    ∃ introns, buildIntrons (sortIv t.exons) = .ok introns ∧
      u.exons = sortIv t.exons ∧ u.introns = introns ∧
      u.combined_cds = sortIv t.combined_cds ∧
      u.combined_utr = sortIv t.combined_utr ∧
      u.start = t.start ∧ u.end_ = t.end_ ∧ u.finalized = true ∧
      (sortIv t.exons).head?.map Prod.fst = some t.start ∧
      (sortIv t.exons).getLast?.map Prod.snd = some t.end_ ∧
      ((combined_cds_length t = 0 ∧ combined_utr_length t = 0) ∨
        cdna_length t = combined_utr_length t + combined_cds_length t) := by
  unfold finalize at h
  rw [h0] at h
  simp only [Bool.false_eq_true, if_false] at h
  split at h
  · exact absurd h (by simp)
  next h1 =>
  split at h
  · exact absurd h (by simp)
  next h2 =>
  split at h
  · exact absurd h (by simp)
  next h3 =>
  split at h
  · exact absurd h (by simp)
  next hlen =>
  split at h
  · exact absurd h (by simp)
  next hext =>
  rw [not_or] at hext
  obtain ⟨hhead, hlast⟩ := hext
  rw [not_not] at hhead hlast
  split at h
  · exact absurd h (by simp)
  next introns heq =>
  refine ⟨introns, heq, ?_⟩
  split at h
  · simp only [Except.ok.injEq] at h
    subst h
    exact ⟨rfl, rfl, rfl, rfl, rfl, rfl, rfl, hhead, hlast, not_not.mp hlen⟩
  · split at h
    · exact absurd h (by simp)
    · simp only [Except.ok.injEq] at h
      subst h
      exact ⟨rfl, rfl, rfl, rfl, rfl, rfl, rfl, hhead, hlast, not_not.mp hlen⟩

end Transcript

/-- Two-exon transcript used for claim C1: exons `[(1,10),(21,30)]` on
`Chr1 +`, no CDS. -/
def exC1 : Transcript :=
  { id := "t1", chrom := "Chr1", strand := some Strand.plus, start := 1, end_ := 30,
    exons := [(1, 10), (21, 30)] }

/-- The result of `finalize exC1`: one intron `(11,20)`. -/
def exC1fin : Transcript :=
  { id := "t1", chrom := "Chr1", strand := some Strand.plus, start := 1, end_ := 30,
    exons := [(1, 10), (21, 30)], introns := [(11, 20)], splices := [11, 20],
    internal_orfs := [[(SegKind.exon, 1, 10), (SegKind.exon, 21, 30)]],
    selected_internal_orf_index := some 0, finalized := true }

/-- Claim C1, counterexample.  The claim asserts
`Σ exon_len = (end − start + 1) + Σ intron_len` for every transcript on
which `finalize` has succeeded; on the finalized two-exon transcript
`exC1` the left-hand side is 20 while the right-hand side is
`30 + 10 = 40` (the correct relation subtracts the intron lengths instead
of adding them). -/
theorem C1_counterexample :
    (Transcript.finalize exC1).map
        (fun u => (Transcript.ivsum u.exons,
          u.end_ - u.start + 1 + Transcript.ivsum u.introns)) =
      .ok ((20 : Int), (40 : Int)) ∧ (20 : Int) ≠ 40 := by
  constructor
  · decide
  · decide

/-- Claim C1 (amended): for every transcript on which `finalize` has
succeeded, the sum of the exon lengths PLUS the sum of the intron lengths
equals `end − start + 1` (the claim's stated equation has the intron sum on
the wrong side), and whenever the combined CDS length is positive,
`cdna_length = combined_cds_length + combined_utr_length`. -/
theorem C1_amended (t u : Transcript) (h0 : t.finalized = false)
    (h : Transcript.finalize t = .ok u) :
    Transcript.ivsum u.exons + Transcript.ivsum u.introns = u.end_ - u.start + 1 ∧
      (0 < Transcript.combined_cds_length u →
        Transcript.cdna_length u =
          Transcript.combined_cds_length u + Transcript.combined_utr_length u) := by
  obtain ⟨introns, hbi, hex, hint, hcds, hutr, hstart, hend, hfin, hhead, hlast, hlen⟩ :=
    Transcript.finalize_ok_spec t u h0 h
  constructor
  · obtain ⟨a, ha, hafst⟩ := Option.map_eq_some'.mp hhead
    obtain ⟨b, hbx, hbsnd⟩ := Option.map_eq_some'.mp hlast
    have hsum := Transcript.buildIntrons_sum (sortIv t.exons) introns a b hbi ha hbx
    rw [hex, hint, hstart, hend]
    omega
  · intro hpos
    have hc : Transcript.combined_cds_length u = Transcript.combined_cds_length t := by
      unfold Transcript.combined_cds_length
      rw [hcds, Transcript.ivsum_sortIv]
    have hu : Transcript.combined_utr_length u = Transcript.combined_utr_length t := by
      unfold Transcript.combined_utr_length
      rw [hutr, Transcript.ivsum_sortIv]
    have hd : Transcript.cdna_length u = Transcript.cdna_length t := by
      unfold Transcript.cdna_length
      rw [hex, Transcript.ivsum_sortIv]
    rw [hc, hu, hd]
    rw [hc] at hpos
    omega

/-- Witness for `C1_amended` at the concrete transcript `exC1`. -/
theorem C1_amended_witness :
    exC1.finalized = false ∧ Transcript.finalize exC1 = .ok exC1fin ∧
      (Transcript.ivsum exC1fin.exons + Transcript.ivsum exC1fin.introns =
          exC1fin.end_ - exC1fin.start + 1 ∧
        (0 < Transcript.combined_cds_length exC1fin →
          Transcript.cdna_length exC1fin =
            Transcript.combined_cds_length exC1fin + Transcript.combined_utr_length exC1fin)) :=
  ⟨rfl, by decide, C1_amended exC1 exC1fin rfl (by decide)⟩

/-- Two closed intervals share at least one position. -/
def ivTouches (a b : Iv) : Prop := max a.1 b.1 ≤ min a.2 b.2

instance : DecidableRel ivTouches := fun a b => by
  unfold ivTouches; infer_instance

theorem ivTouches_comm {a b : Iv} : ivTouches a b ↔ ivTouches b a := by
  unfold ivTouches
  rw [max_comm, min_comm]

theorem ivsum_nonneg_of_wf :
    ∀ (l : List Iv), (∀ p ∈ l, p.1 ≤ p.2) → 0 ≤ Transcript.ivsum l
  | [], _ => le_refl 0
  | p :: l, hwf => by
    rw [Transcript.ivsum_cons]
    have h1 := hwf p (List.mem_cons_self p l)
    have h2 := ivsum_nonneg_of_wf l (fun q hq => hwf q (List.mem_cons_of_mem p hq))
    omega

theorem ivsum_pos_of_wf (l : List Iv) (hwf : ∀ p ∈ l, p.1 ≤ p.2) (hne : l ≠ []) :
    0 < Transcript.ivsum l := by
  cases l with
  | nil => exact absurd rfl hne
  | cons p l =>
    rw [Transcript.ivsum_cons]
    have h1 := hwf p (List.mem_cons_self p l)
    have h2 := ivsum_nonneg_of_wf l (fun q hq => hwf q (List.mem_cons_of_mem p hq))
    omega

/-- `buildIntrons` succeeds exactly when consecutive sorted exons are
strictly separated. -/
theorem buildIntrons_isOk_iff :
    ∀ (l : List Iv), (∃ ys, Transcript.buildIntrons l = .ok ys) ↔
      l.Chain' (fun a b => a.2 < b.1)
  | [] => by simp [Transcript.buildIntrons]
  | [x] => by simp [Transcript.buildIntrons]
  | x :: y :: rest => by
    unfold Transcript.buildIntrons
    rw [List.chain'_cons]
    by_cases hxy : y.1 ≤ x.2
    · simp only [if_pos hxy]
      constructor
      · rintro ⟨ys, h⟩
        exact absurd h (by simp)
      · rintro ⟨h1, _⟩
        omega
    · simp only [if_neg hxy]
      have ih := buildIntrons_isOk_iff (y :: rest)
      constructor
      · rintro ⟨ys, h⟩
        refine ⟨by omega, ?_⟩
        cases hbi : Transcript.buildIntrons (y :: rest) with
        | error e => rw [hbi] at h; exact absurd h (by simp)
        | ok tail => exact ih.mp ⟨tail, hbi⟩
      · rintro ⟨h1, hch⟩
        obtain ⟨tail, hbi⟩ := ih.mpr hch
        exact ⟨(x.2 + 1, y.1 - 1) :: tail, by rw [hbi]⟩

/-- On a sorted list of well-formed intervals, the consecutive-separation
chain implies pairwise disjointness. -/
theorem chain_lt_pairwise_disjoint :
    ∀ (l : List Iv), List.Sorted ivLe l → (∀ p ∈ l, p.1 ≤ p.2) →
      l.Chain' (fun a b => a.2 < b.1) → l.Pairwise (fun a b => ¬ ivTouches a b)
  | [], _, _, _ => List.Pairwise.nil
  | a :: l, hs, hwf, hc => by
    rw [List.sorted_cons] at hs
    rw [List.chain'_cons'] at hc
    refine List.Pairwise.cons ?_
      (chain_lt_pairwise_disjoint l hs.2 (fun p hp => hwf p (List.mem_cons_of_mem a hp)) hc.2)
    intro b hb
    cases l with
    | nil => exact absurd hb (List.not_mem_nil b)
    | cons x l' =>
      have hax : a.2 < x.1 := hc.1 x rfl
      have hxb : x.1 ≤ b.1 := by
        rcases List.mem_cons.mp hb with hbx | hbl
        · subst hbx; omega
        · have hxl := (List.sorted_cons.mp hs.2).1 b hbl
          unfold ivLe at hxl
          omega
      intro ht
      unfold ivTouches at ht
      omega

/-- On a sorted list of well-formed intervals, pairwise disjointness
implies the consecutive-separation chain. -/
theorem pairwise_disjoint_chain_lt :
    ∀ (l : List Iv), List.Sorted ivLe l → (∀ p ∈ l, p.1 ≤ p.2) →
      l.Pairwise (fun a b => ¬ ivTouches a b) → l.Chain' (fun a b => a.2 < b.1)
  | [], _, _, _ => List.chain'_nil
  | a :: l, hs, hwf, hp => by
    rw [List.sorted_cons] at hs
    rw [List.pairwise_cons] at hp
    rw [List.chain'_cons']
    refine ⟨?_, pairwise_disjoint_chain_lt l hs.2
      (fun p h => hwf p (List.mem_cons_of_mem a h)) hp.2⟩
    intro y hy
    cases l with
    | nil => simp at hy
    | cons x l' =>
      have hyx : y = x := by
        have := hy
        simp at this
        exact this.symm
      subst hyx
      have hnt := hp.1 y (List.mem_cons_self y l')
      have hle := hs.1 y (List.mem_cons_self y l')
      have hwa := hwf a (List.mem_cons_self a _)
      have hwy := hwf y (List.mem_cons_of_mem a (List.mem_cons_self y l'))
      unfold ivTouches at hnt
      unfold ivLe at hle
      omega

/-- Claim C3: called on a non-finalized transcript (whose interval lists
are well-formed, as `addExon` guarantees), `finalize` raises
`InvalidTranscript` exactly when one of the following holds: the
transcript has no exons; it has more than one exon and no defined strand;
it has UTR segments but no CDS segments; two of its exons overlap; the
first exon's start or the last exon's end (after sorting) disagrees with
the transcript's start/end; or the length accounting fails
(`cdna_length ≠ combined_cds_length + combined_utr_length` while some CDS
or UTR is present).  Otherwise it returns normally. -/
theorem C3_finalize_error_iff (t : Transcript) (h0 : t.finalized = false)
    (hwfE : ∀ p ∈ t.exons, p.1 ≤ p.2) (hwfC : ∀ p ∈ t.combined_cds, p.1 ≤ p.2)
    (hwfU : ∀ p ∈ t.combined_utr, p.1 ≤ p.2) :
    (∃ e, Transcript.finalize t = .error e) ↔
      (t.exons = []
        ∨ (1 < t.exons.length ∧ t.strand = none)
        ∨ (t.combined_utr ≠ [] ∧ t.combined_cds = [])
        ∨ ¬ t.exons.Pairwise (fun a b => ¬ ivTouches a b)
        ∨ ((sortIv t.exons).head?.map Prod.fst ≠ some t.start ∨
            (sortIv t.exons).getLast?.map Prod.snd ≠ some t.end_)
        ∨ ((t.combined_cds ≠ [] ∨ t.combined_utr ≠ []) ∧
            t.cdna_length ≠ t.combined_cds_length + t.combined_utr_length)) := by
  have hperm : (sortIv t.exons).Perm t.exons := List.perm_insertionSort ivLe t.exons
  have hsorted : List.Sorted ivLe (sortIv t.exons) := List.sorted_insertionSort ivLe t.exons
  have hwfS : ∀ p ∈ sortIv t.exons, p.1 ≤ p.2 :=
    fun p hp => hwfE p ((List.mem_insertionSort ivLe).mp hp)
  have hpw : (sortIv t.exons).Pairwise (fun a b => ¬ ivTouches a b) ↔
      t.exons.Pairwise (fun a b => ¬ ivTouches a b) :=
    hperm.pairwise_iff (fun hd ht => hd (ivTouches_comm.mp ht))
  have hcds0 : Transcript.combined_cds_length t = 0 ↔ t.combined_cds = [] := by
    constructor
    · intro h
      by_contra hne
      have hpos := ivsum_pos_of_wf t.combined_cds hwfC hne
      unfold Transcript.combined_cds_length at h
      omega
    · intro h
      unfold Transcript.combined_cds_length
      rw [h]
      rfl
  have hutr0 : Transcript.combined_utr_length t = 0 ↔ t.combined_utr = [] := by
    constructor
    · intro h
      by_contra hne
      have hpos := ivsum_pos_of_wf t.combined_utr hwfU hne
      unfold Transcript.combined_utr_length at h
      omega
    · intro h
      unfold Transcript.combined_utr_length
      rw [h]
      rfl
  by_cases hA : t.exons.length = 0
  · refine iff_of_true ⟨.invalidNoExons, ?_⟩ (Or.inl (List.length_eq_zero.mp hA))
    unfold Transcript.finalize
    rw [h0]
    simp [hA]
  by_cases hB : 1 < t.exons.length ∧ t.strand = none
  · refine iff_of_true ⟨.invalidMultiexonicNoStrand, ?_⟩ (Or.inr (Or.inl hB))
    unfold Transcript.finalize
    rw [h0]
    simp [hA, hB.1, hB.2]
  by_cases hC : t.combined_utr ≠ [] ∧ t.combined_cds = []
  · refine iff_of_true ⟨.invalidUtrWithoutCds, ?_⟩ (Or.inr (Or.inr (Or.inl hC)))
    unfold Transcript.finalize
    rw [h0]
    simp [hA, hB, hC.1, hC.2]
  by_cases hD : ¬ ((Transcript.combined_cds_length t = 0 ∧ Transcript.combined_utr_length t = 0) ∨
      Transcript.cdna_length t = Transcript.combined_utr_length t + Transcript.combined_cds_length t)
  · refine iff_of_true ⟨.invalidLengthMismatch, ?_⟩ ?_
    · unfold Transcript.finalize
      rw [h0]
      simp [hA, hB, hC, hD]
    · rw [not_or] at hD
      obtain ⟨hD1, hD2⟩ := hD
      rw [not_and_or] at hD1
      refine Or.inr (Or.inr (Or.inr (Or.inr (Or.inr ⟨?_, by omega⟩))))
      rcases hD1 with h | h
      · exact Or.inl (fun hnil => h (hcds0.mpr hnil))
      · exact Or.inr (fun hnil => h (hutr0.mpr hnil))
  rw [not_not] at hD
  by_cases hE : ((sortIv t.exons).head?.map Prod.fst ≠ some t.start ∨
      (sortIv t.exons).getLast?.map Prod.snd ≠ some t.end_)
  · refine iff_of_true ⟨.invalidExtentMismatch, ?_⟩
      (Or.inr (Or.inr (Or.inr (Or.inr (Or.inl hE)))))
    unfold Transcript.finalize
    rw [h0]
    simp only [Bool.false_eq_true, if_false]
    rw [if_neg hA, if_neg hB, if_neg hC]
    rw [if_neg (not_not.mpr hD)]
    rw [if_pos hE]
  by_cases hF : (sortIv t.exons).Chain' (fun a b => a.2 < b.1)
  · obtain ⟨ys, hbi⟩ := (buildIntrons_isOk_iff (sortIv t.exons)).mpr hF
    refine iff_of_false ?_ ?_
    · rintro ⟨e, he⟩
      unfold Transcript.finalize at he
      rw [h0] at he
      simp only [Bool.false_eq_true, if_false] at he
      rw [if_neg hA, if_neg hB, if_neg hC] at he
      rw [if_neg (not_not.mpr hD)] at he
      rw [if_neg hE] at he
      rw [hbi] at he
      simp only [] at he
      by_cases hcs : sortIv t.combined_cds = []
      · rw [if_pos hcs] at he
        exact absurd he (by simp)
      · rw [if_neg hcs] at he
        have hne : t.combined_cds ≠ [] := fun h => hcs (by rw [sortIv, h]; rfl)
        have hpos : 0 < Transcript.ivsum (sortIv t.combined_cds) := by
          rw [Transcript.ivsum_sortIv]
          exact ivsum_pos_of_wf t.combined_cds hwfC hne
        rw [if_pos hpos] at he
        exact absurd he (by simp)
    · rintro (h | h | h | h | h | h)
      · exact hA (by rw [h]; rfl)
      · exact hB h
      · exact hC h
      · exact h (hpw.mp (chain_lt_pairwise_disjoint (sortIv t.exons) hsorted hwfS hF))
      · exact hE h
      · rcases hD with ⟨hc0, hu0⟩ | heq
        · rcases h.1 with hne | hne
          · exact hne (hcds0.mp hc0)
          · exact hne (hutr0.mp hu0)
        · exact h.2 (by omega)
  · cases hbi : Transcript.buildIntrons (sortIv t.exons) with
    | ok ys => exact absurd ((buildIntrons_isOk_iff (sortIv t.exons)).mp ⟨ys, hbi⟩) hF
    | error e =>
      refine iff_of_true ⟨e, ?_⟩ ?_
      · unfold Transcript.finalize
        rw [h0]
        simp only [Bool.false_eq_true, if_false]
        rw [if_neg hA, if_neg hB, if_neg hC]
        rw [if_neg (not_not.mpr hD)]
        rw [if_neg hE]
        rw [hbi]
      · refine Or.inr (Or.inr (Or.inr (Or.inl ?_)))
        intro hpw2
        exact hF (pairwise_disjoint_chain_lt (sortIv t.exons) hsorted hwfS (hpw.mpr hpw2))

/-- Well-formed non-finalized transcript used as the witness input for
claim C3: all checks pass, so `finalize` succeeds. -/
def exC3 : Transcript :=
  { id := "t3", chrom := "Chr1", strand := some Strand.plus, start := 1, end_ := 50,
    exons := [(1, 20), (31, 50)], combined_cds := [(11, 20), (31, 40)],
    combined_utr := [(1, 10), (41, 50)] }

/-- Witness for `C3_finalize_error_iff` at the concrete transcript `exC3`. -/
theorem C3_witness :
    exC3.finalized = false ∧ (∀ p ∈ exC3.exons, p.1 ≤ p.2) ∧
      (∀ p ∈ exC3.combined_cds, p.1 ≤ p.2) ∧ (∀ p ∈ exC3.combined_utr, p.1 ≤ p.2) ∧
      ((∃ e, Transcript.finalize exC3 = .error e) ↔
        (exC3.exons = []
          ∨ (1 < exC3.exons.length ∧ exC3.strand = none)
          ∨ (exC3.combined_utr ≠ [] ∧ exC3.combined_cds = [])
          ∨ ¬ exC3.exons.Pairwise (fun a b => ¬ ivTouches a b)
          ∨ ((sortIv exC3.exons).head?.map Prod.fst ≠ some exC3.start ∨
              (sortIv exC3.exons).getLast?.map Prod.snd ≠ some exC3.end_)
          ∨ ((exC3.combined_cds ≠ [] ∨ exC3.combined_utr ≠ []) ∧
              exC3.cdna_length ≠ exC3.combined_cds_length + exC3.combined_utr_length))) :=
  ⟨rfl, by decide, by decide, by decide,
    C3_finalize_error_iff exC3 rfl (by decide) (by decide) (by decide)⟩

/-- Claim C2: for finalized transcripts with distinct ids and any value of
`cds_only`, the sublocus intersection predicate returns true iff either
both transcripts are multiexonic and share an intron (a combined-CDS
intron when `cds_only` is true), or both are monoexonic and share a start
or end boundary or have positive extent overlap; a mixed monoexonic /
multiexonic pair never intersects. -/
theorem C2_sublocus_predicate_iff (transcript other : Transcript) (cds_only : Bool)
    (hf1 : transcript.finalized = true) (hf2 : other.finalized = true)
    (hid : transcript.id ≠ other.id) :
    Superlocus.is_intersecting transcript other cds_only = true ↔
      ((transcript.monoexonic = false ∧ other.monoexonic = false ∧
          ((cds_only = false ∧ ∃ i ∈ transcript.introns, i ∈ other.introns) ∨
            (cds_only = true ∧
              ∃ i ∈ transcript.combined_cds_introns, i ∈ other.combined_cds_introns)))
        ∨ (transcript.monoexonic = true ∧ other.monoexonic = true ∧
            (transcript.start = other.start ∨ transcript.end_ = other.end_ ∨
              0 < overlap (transcript.start, transcript.end_) (other.start, other.end_)))) := by
  unfold Superlocus.is_intersecting
  have hbeq : (transcript.id == other.id) = false := by
    simp [hid]
  rw [hbeq]
  simp only [Bool.false_eq_true, if_false]
  cases hm1 : transcript.monoexonic with
  | false =>
    cases hm2 : other.monoexonic with
    | false =>
      simp only [hm1, hm2]
      cases cds_only with
      | false =>
        simp [List.length_pos, List.filter_eq_nil_iff, not_forall]
      | true =>
        simp [List.length_pos, List.filter_eq_nil_iff, not_forall]
    | true =>
      simp [hm1, hm2]
  | true =>
    cases hm2 : other.monoexonic with
    | false =>
      simp [hm1, hm2]
    | true =>
      simp only [hm1, hm2]
      by_cases hse : transcript.start = other.start ∨ transcript.end_ = other.end_
      · simp [hse]
        rcases hse with h | h
        · simp [h]
        · simp [h]
      · rw [not_or] at hse
        simp [hse.1, hse.2]

/-- Pair of finalized transcripts on `Chr1 +` sharing intron `(201,300)`,
the witness input for claim C2. -/
def exC2a : Transcript :=
  { id := "t2a", chrom := "Chr1", strand := some Strand.plus, start := 100, end_ := 500,
    exons := [(100, 200), (301, 500)], introns := [(201, 300)], finalized := true }

/-- Second transcript of the C2 witness pair. -/
def exC2b : Transcript :=
  { id := "t2b", chrom := "Chr1", strand := some Strand.plus, start := 150, end_ := 450,
    exons := [(150, 200), (301, 450)], introns := [(201, 300)], finalized := true }

/-- Witness for `C2_sublocus_predicate_iff` at the concrete pair
`exC2a`, `exC2b` with `cds_only = false`. -/
theorem C2_witness :
    exC2a.finalized = true ∧ exC2b.finalized = true ∧ exC2a.id ≠ exC2b.id ∧
      (Superlocus.is_intersecting exC2a exC2b false = true ↔
        ((exC2a.monoexonic = false ∧ exC2b.monoexonic = false ∧
            ((false = false ∧ ∃ i ∈ exC2a.introns, i ∈ exC2b.introns) ∨
              (false = true ∧
                ∃ i ∈ exC2a.combined_cds_introns, i ∈ exC2b.combined_cds_introns)))
          ∨ (exC2a.monoexonic = true ∧ exC2b.monoexonic = true ∧
              (exC2a.start = exC2b.start ∨ exC2a.end_ = exC2b.end_ ∨
                0 < overlap (exC2a.start, exC2a.end_) (exC2b.start, exC2b.end_))))) :=
  ⟨rfl, rfl, by decide, C2_sublocus_predicate_iff exC2a exC2b false rfl rfl (by decide)⟩

/-- The ORF loop of `load_orfs` only rewrites the strand, the codon flags,
`loaded_bed12` and `internal_orfs`; every other field is inherited.  -/
theorem orf_loop_fields (t : Transcript) (cands : List Orf) (s : Transcript)
    (h : Transcript.orf_loop t cands = .ok s) :
    s.combined_cds = t.combined_cds ∧ s.combined_utr = t.combined_utr ∧
      s.finalized = t.finalized ∧ s.exons = t.exons := by
  unfold Transcript.orf_loop at h
  split at h
  · exact absurd h (by simp)
  · simp only [Except.ok.injEq] at h
    subst h
    exact ⟨rfl, rfl, rfl, rfl⟩

/-- Transcript with an annotation-derived CDS, used for the C4
counterexample: exons `[(1,100),(201,300)]`, CDS `[(51,100),(201,250)]`,
UTR `[(1,50),(251,300)]`. -/
def exC4 : Transcript :=
  { id := "t4", chrom := "Chr1", strand := some Strand.plus, start := 1, end_ := 300,
    exons := [(1, 100), (201, 300)], combined_cds := [(51, 100), (201, 250)],
    combined_utr := [(1, 50), (251, 300)] }

/-- Candidate ORF whose `thickEnd` (500) exceeds the cDNA length (200), so
`load_orfs` skips it. -/
def exC4orf : Orf :=
  { orf_id := 1, thickStart := 1, thickEnd := 500, cds_len := 300, strand := some Strand.plus }

/-- Claim C4, counterexample.  The finalized `exC4` has combined CDS
`[(51,100),(201,250)]`; running `load_orfs` with the single (skipped)
candidate `exC4orf` retains no ORF and falls back to re-running `finalize` —
but the annotation CDS/UTR were cleared at the start of `load_orfs`, so
afterwards `combined_cds` and `combined_utr` are empty rather than equal to
their previous values. -/
theorem C4_counterexample :
    (Transcript.finalize exC4).map (fun u => (u.combined_cds, u.combined_utr)) =
        .ok ([(51, 100), (201, 250)], [(1, 50), (251, 300)]) ∧
      ((Transcript.finalize exC4).bind
          (fun u => Transcript.load_orfs u {} [exC4orf])).map
          (fun u => (u.combined_cds, u.combined_utr)) = .ok ([], []) := by
  constructor
  · decide
  · decide

/-- Claim C4 (amended): when `load_orfs` runs on a finalized transcript
with a non-empty candidate list and its projection loop retains no ORF,
the fallback re-run of `finalize` operates on the cleared state: the
resulting transcript has empty `combined_cds` and `combined_utr` (the
annotation-derived CDS is not restored). -/
theorem C4_amended (t : Transcript) (conf : JsonConf) (orfs : List Orf)
    (s t' : Transcript)
    (hf : t.finalized = true) (ho : orfs ≠ [])
    (hloop : Transcript.orf_loop (Transcript.clear_cds t)
      (Transcript.candidate_selection (Transcript.clear_cds t) conf orfs) = .ok s)
    (hempty : s.internal_orfs = [])
    (hres : Transcript.load_orfs t conf orfs = .ok t') :
    t'.combined_cds = [] ∧ t'.combined_utr = [] := by
  have hoe : orfs.isEmpty = false := by
    cases orfs with
    | nil => exact absurd rfl ho
    | cons a l => rfl
  unfold Transcript.load_orfs at hres
  rw [Transcript.finalize_of_finalized t hf] at hres
  simp only [] at hres
  rw [hoe] at hres
  simp only [Bool.false_eq_true, if_false] at hres
  rw [hloop] at hres
  simp only [] at hres
  have hasm : Transcript.assemble_combined s = .ok s := by
    unfold Transcript.assemble_combined
    rw [hempty]
    simp
  rw [hasm] at hres
  simp only [] at hres
  rw [if_pos hempty] at hres
  obtain ⟨hsc, hsu, hsf, _⟩ := orf_loop_fields _ _ _ hloop
  have hsc0 : s.combined_cds = [] := by rw [hsc]; rfl
  have hsu0 : s.combined_utr = [] := by rw [hsu]; rfl
  have hsf0 : s.finalized = false := by rw [hsf]; rfl
  obtain ⟨introns, _, _, _, hcds, hutr, _⟩ := Transcript.finalize_ok_spec s t' hsf0 hres
  constructor
  · rw [hcds, hsc0]; rfl
  · rw [hutr, hsu0]; rfl

/-- Hand-built finalized monoexonic transcript for the C4 witness. -/
def exC4w : Transcript :=
  { id := "w", chrom := "Chr1", strand := some Strand.plus, start := 1, end_ := 10,
    exons := [(1, 10)], internal_orfs := [[(SegKind.exon, 1, 10)]],
    selected_internal_orf_index := some 0, finalized := true }

/-- Candidate ORF skipped because `thickEnd` (50) exceeds the cDNA length
(10) of `exC4w`. -/
def exC4worf : Orf :=
  { orf_id := 7, thickStart := 1, thickEnd := 50, cds_len := 30, strand := some Strand.plus }

/-- Witness for `C4_amended` at the concrete transcript `exC4w`. -/
theorem C4_amended_witness :
    exC4w.finalized = true ∧ ([exC4worf] : List Orf) ≠ [] ∧
      Transcript.orf_loop (Transcript.clear_cds exC4w)
        (Transcript.candidate_selection (Transcript.clear_cds exC4w) {} [exC4worf]) =
        .ok (Transcript.clear_cds exC4w) ∧
      (Transcript.clear_cds exC4w).internal_orfs = [] ∧
      Transcript.load_orfs exC4w {} [exC4worf] = .ok exC4w ∧
      (exC4w.combined_cds = [] ∧ exC4w.combined_utr = []) :=
  ⟨rfl, by decide, by decide, rfl, by decide,
    C4_amended exC4w {} [exC4worf] (Transcript.clear_cds exC4w) exC4w rfl (by decide)
      (by decide) rfl (by decide)⟩

/-- Same-strand ORF pair whose thick intervals `(1,100)` and `(100,200)`
have overlap exactly zero, for claim C5. -/
def exC5a : Orf :=
  { orf_id := 1, thickStart := 1, thickEnd := 100, cds_len := 100, strand := some Strand.plus }

/-- Second ORF of the C5 pair. -/
def exC5b : Orf :=
  { orf_id := 2, thickStart := 100, thickEnd := 200, cds_len := 90, strand := some Strand.plus }

/-- Claim C5, counterexample.  The claim asserts that two same-strand ORFs
whose intervals have overlap zero get no edge, end up in different
components, and are both retained; in the code `is_overlapping_cds` only
excludes `overlap < 0`, so the zero-overlap pair `exC5a`/`exC5b` is joined
by an edge, forms a single community, and only its longest member survives
representative selection. -/
theorem C5_counterexample :
    overlap (exC5a.thickStart, exC5a.thickEnd) (exC5b.thickStart, exC5b.thickEnd) = 0 ∧
      exC5a.strand = exC5b.strand ∧ exC5a ≠ exC5b ∧
      is_overlapping_cds exC5a exC5b = true ∧
      find_overlapping_cds [exC5a, exC5b] = [[exC5a, exC5b]] ∧
      Transcript.communityReps [exC5a, exC5b] = [exC5a] := by
  decide

/-- Claim C5 (amended): the ORF-graph edge predicate joins two candidate
ORFs iff they are distinct, lie on the same strand, and the overlap of
their `(thickStart, thickEnd)` intervals is non-negative — zero overlap
does create an edge; only a strictly negative overlap keeps two ORFs in
different connected components. -/
theorem C5_amended (first second : Orf) :
    is_overlapping_cds first second = true ↔
      (first ≠ second ∧ first.strand = second.strand ∧
        0 ≤ overlap (first.thickStart, first.thickEnd) (second.thickStart, second.thickEnd)) := by
  unfold is_overlapping_cds
  split
  next h =>
    constructor
    · intro hft
      exact absurd hft (by simp)
    · rintro ⟨h1, h2, h3⟩
      rcases h with h | h | h
      · exact absurd h h1
      · exact absurd h2 h
      · omega
  next h =>
    push_neg at h
    exact iff_of_true rfl ⟨h.1, h.2.1, h.2.2⟩

/-- Primary representative for claim C6. -/
def exC6a : Orf := { orf_id := 1, thickStart := 1, thickEnd := 100, cds_len := 500 }

/-- Secondary representative whose `cds_len` equals the threshold. -/
def exC6b : Orf := { orf_id := 2, thickStart := 200, thickEnd := 300, cds_len := 300 }

/-- Claim C6, counterexample.  With
`minimal_secondary_orf_length = 300`, the secondary representative whose
`cds_len` is exactly 300 is NOT retained: the source filters with the
strict comparison `cds_len > minimal_secondary_orf_length`. -/
theorem C6_counterexample :
    exC6b.cds_len = 300 ∧
      Transcript.retain_candidates [exC6a, exC6b] 300 = [exC6a] ∧
      exC6b ∉ Transcript.retain_candidates [exC6a, exC6b] 300 := by
  decide

/-- Claim C6 (amended): after one representative per connected component is
chosen, the first (longest-CDS) representative is always retained, and a
non-primary representative is retained if and only if its `cds_len` is
STRICTLY greater than `minimal_secondary_orf_length` (one exactly equal to
the threshold is dropped). -/
theorem C6_amended (first : Orf) (rest : List Orf) (minimal : Int) (o : Orf) :
    o ∈ Transcript.retain_candidates (first :: rest) minimal ↔
      (o = first ∨ (o ∈ rest ∧ minimal < o.cds_len)) := by
  unfold Transcript.retain_candidates
  simp [List.mem_filter]

/-- Non-finalized transcript for claim C7. -/
def exC7 : Transcript := { id := "t7", exons := [(1, 10)] }

/-- A `start_codon` record for `exC7`. -/
def exC7start : GffRecord :=
  { feature := "start_codon", start := 1, end_ := 3, parent := ["t7"] }

/-- A `stop_codon` record for `exC7`. -/
def exC7stop : GffRecord :=
  { feature := "stop_codon", start := 8, end_ := 10, parent := ["t7"] }

/-- Claim C7 (code bug): on a non-finalized transcript `addExon` with a
`start_codon` record returns normally, setting only the flag; but the
`stop_codon` branch of the source is missing the `return` that the
`start_codon` branch has, so after setting `has_stop_codon` control falls
through to `store.append` with the local `store` never assigned, raising
`UnboundLocalError` instead of returning normally. -/
theorem C7_stop_codon_bug :
    Transcript.addExon exC7 exC7start = .ok { exC7 with has_start_codon := true } ∧
      Transcript.addExon exC7 exC7stop =
        .error (.unboundLocalError, { exC7 with has_stop_codon := true }) := by
  constructor
  · decide
  · decide

/-- Finalized `+`-strand transcript whose combined CDS ends at 400, 101
exonic positions before the transcript end, for claim C8. -/
def exC8 : Transcript :=
  { id := "t8", chrom := "Chr1", strand := some Strand.plus, start := 100, end_ := 500,
    exons := [(100, 200), (301, 500)], combined_cds := [(100, 200), (301, 400)],
    finalized := true }

/-- The same transcript on the `-` strand. -/
def exC8m : Transcript := { exC8 with strand := some Strand.minus }

/-- Claim C8 (code bug): both branches of `end_distance_from_tes` test
`strand == "-"`, and the taken branch reads the non-existent attribute
`self.cds_end`.  On the `+`-strand transcript `exC8` the code returns 0
while the spec-mandated accumulation from the transcript end gives 101;
on the `-`-strand variant the code raises `AttributeError`. -/
theorem C8_end_distance_bug :
    Transcript.end_distance_from_tes exC8 = .ok 0 ∧
      Transcript.end_distance_from_tes_spec exC8 = 101 ∧ ((101 : Int) ≠ 0) ∧
      Transcript.end_distance_from_tes exC8m = .error .attributeError := by
  refine ⟨by decide, by decide, by decide, by decide⟩

namespace Superlocus

theorem mem_loci_cliques (inp : ASInput) (tid prim : String) :
    tid ∈ loci_cliques inp prim ↔ shares_clique inp tid prim := by
  unfold loci_cliques shares_clique
  simp only [List.mem_flatten, List.mem_map, List.mem_filter, decide_eq_true_eq]
  constructor
  · rintro ⟨l, ⟨c, ⟨hc, hp⟩, rfl⟩, hin⟩
    have := List.mem_filter.mp hin
    exact ⟨c, hc, hp, this.1, of_decide_eq_true this.2⟩
  · rintro ⟨c, hc, hp, hin, hne⟩
    exact ⟨c.filter (fun x => decide (x ≠ prim)), ⟨c, ⟨hc, hp⟩, rfl⟩,
      List.mem_filter.mpr ⟨hin, decide_eq_true hne⟩⟩

/-- With locus ids free of duplicates, the projection of a filtered
association list being the singleton `[lid]` says exactly that some entry
with key `lid` passes the filter and every passing entry has key `lid`. -/
theorem filter_map_fst_single {β : Type} (l : List (String × β)) (P : String × β → Bool)
    (lid : String) (hnd : (l.map Prod.fst).Nodup) :
    (l.filter P).map Prod.fst = [lid] ↔
      ((∃ lp ∈ l, P lp = true ∧ lp.1 = lid) ∧ ∀ q ∈ l, P q = true → q.1 = lid) := by
  constructor
  · intro h
    cases hfl : l.filter P with
    | nil => rw [hfl] at h; exact absurd h (by simp)
    | cons a t =>
      rw [hfl] at h
      simp only [List.map_cons, List.cons.injEq] at h
      have ht : t = [] := by
        cases t with
        | nil => rfl
        | cons b u => exact absurd h.2 (by simp)
      subst ht
      have haf : a ∈ l.filter P := by rw [hfl]; exact List.mem_cons_self a []
      have ham := List.mem_filter.mp haf
      refine ⟨⟨a, ham.1, ham.2, h.1⟩, ?_⟩
      intro q hq hPq
      have hqf : q ∈ l.filter P := List.mem_filter.mpr ⟨hq, hPq⟩
      rw [hfl] at hqf
      have : q = a := by simpa using hqf
      rw [this]
      exact h.1
  · rintro ⟨⟨lp, hlpl, hP, hfst⟩, hall⟩
    have hsub : (l.filter P).Sublist l := List.filter_sublist l
    have hndf : ((l.filter P).map Prod.fst).Nodup := (hsub.map Prod.fst).nodup hnd
    have hall2 : ∀ x ∈ (l.filter P).map Prod.fst, x = lid := by
      intro x hx
      obtain ⟨q, hq, rfl⟩ := List.mem_map.mp hx
      have hqm := List.mem_filter.mp hq
      exact hall q hqm.1 hqm.2
    have hlpf : lp ∈ l.filter P := List.mem_filter.mpr ⟨hlpl, hP⟩
    have hmem : lid ∈ (l.filter P).map Prod.fst := by
      rw [← hfst]
      exact List.mem_map.mpr ⟨lp, hlpf, rfl⟩
    cases hfl : (l.filter P).map Prod.fst with
    | nil => rw [hfl] at hmem; exact absurd hmem (List.not_mem_nil lid)
    | cons x t =>
      rw [hfl] at hall2 hndf
      have hx : x = lid := hall2 x (List.mem_cons_self x t)
      have ht : t = [] := by
        cases t with
        | nil => rfl
        | cons y u =>
          have hy : y = lid := hall2 y (List.mem_cons_of_mem x (List.mem_cons_self y u))
          rw [List.nodup_cons] at hndf
          exact absurd (by rw [hx, ← hy]; exact List.mem_cons_self y u) hndf.1
      rw [hx, ht]

/-- Input for the C9 counterexample: one locus `L` with primary `p`, and a
transcript `t` that shares TWO cliques with `p`. -/
def exC9 : ASInput :=
  { transcripts := ["p", "t", "u", "v"], loci := [("L", "p")],
    cliques := [["p", "t", "u"], ["p", "t", "v"]] }

end Superlocus

/-- Claim C9, counterexample.  The claim only admits an AS candidate that
appears in exactly one clique containing exactly one locus's primary; in
the code, transcript `t` — which appears in TWO cliques containing the
primary `p` of locus `L` — is still submitted to `L`, because
`define_alternative_splicing` only requires the set of loci whose primaries
are clique-mates of `t` to be a singleton. -/
theorem C9_counterexample :
    ("L", "t") ∈ Superlocus.as_candidates Superlocus.exC9 ∧
      (Superlocus.exC9.cliques.filter
        (fun c => decide ("t" ∈ c) && decide ("p" ∈ c))).length = 2 := by
  decide

/-- Claim C9 (amended): a non-primary transcript is submitted as an AS
candidate to a locus iff it shares at least one clique (possibly several)
with that locus's primary and with no other locus's primary; a transcript
whose cliques connect it to the primaries of two or more loci is added to
no locus. -/
theorem C9_amended (inp : Superlocus.ASInput) (tid lid : String)
    (hnd : (inp.loci.map Prod.fst).Nodup) :
    (lid, tid) ∈ Superlocus.as_candidates inp ↔
      (tid ∈ inp.transcripts ∧ tid ∉ Superlocus.primary_transcripts inp ∧
        (∃ lp ∈ inp.loci, lp.1 = lid ∧ Superlocus.shares_clique inp tid lp.2) ∧
        (∀ q ∈ inp.loci, Superlocus.shares_clique inp tid q.2 → q.1 = lid)) := by
  unfold Superlocus.as_candidates
  rw [List.mem_filterMap]
  have hf : ∀ a, ((match Superlocus.loci_in inp a with
        | [x] => some (x, a)
        | _ => none) = some (lid, tid)) ↔
      (a = tid ∧ Superlocus.loci_in inp a = [lid]) := by
    intro a
    cases hli : Superlocus.loci_in inp a with
    | nil => simp
    | cons x t =>
      cases t with
      | nil => simp [And.comm]
      | cons y u => simp
  constructor
  · rintro ⟨a, ha, hfa⟩
    obtain ⟨rfl, hli⟩ := (hf a).mp hfa
    have ham := List.mem_filter.mp ha
    have hnp := of_decide_eq_true ham.2
    unfold Superlocus.loci_in at hli
    rw [Superlocus.filter_map_fst_single inp.loci _ lid hnd] at hli
    obtain ⟨⟨lp, hlpl, hP, hfst⟩, hall⟩ := hli
    refine ⟨ham.1, hnp, ⟨lp, hlpl, hfst, ?_⟩, ?_⟩
    · exact (Superlocus.mem_loci_cliques inp a lp.2).mp (of_decide_eq_true hP)
    · intro q hq hsh
      exact hall q hq (decide_eq_true ((Superlocus.mem_loci_cliques inp a q.2).mpr hsh))
  · rintro ⟨htr, hnp, ⟨lp, hlpl, hfst, hsh⟩, hall⟩
    refine ⟨tid, List.mem_filter.mpr ⟨htr, decide_eq_true hnp⟩, (hf tid).mpr ⟨rfl, ?_⟩⟩
    unfold Superlocus.loci_in
    rw [Superlocus.filter_map_fst_single inp.loci _ lid hnd]
    refine ⟨⟨lp, hlpl, decide_eq_true ((Superlocus.mem_loci_cliques inp tid lp.2).mpr hsh), hfst⟩, ?_⟩
    intro q hq hPq
    exact hall q hq ((Superlocus.mem_loci_cliques inp tid q.2).mp (of_decide_eq_true hPq))

/-- Witness for `C9_amended` at the concrete input `Superlocus.exC9`. -/
theorem C9_amended_witness :
    (Superlocus.exC9.loci.map Prod.fst).Nodup ∧
      ((("L", "t") ∈ Superlocus.as_candidates Superlocus.exC9) ↔
        ("t" ∈ Superlocus.exC9.transcripts ∧
          "t" ∉ Superlocus.primary_transcripts Superlocus.exC9 ∧
          (∃ lp ∈ Superlocus.exC9.loci, lp.1 = "L" ∧
            Superlocus.shares_clique Superlocus.exC9 "t" lp.2) ∧
          (∀ q ∈ Superlocus.exC9.loci,
            Superlocus.shares_clique Superlocus.exC9 "t" q.2 → q.1 = "L"))) :=
  ⟨by decide, C9_amended Superlocus.exC9 "t" "L" (by decide)⟩

/-- Finalized single-ORF transcript for claim C10. -/
def exC10 : Transcript :=
  { id := "t10", chrom := "Chr1", strand := some Strand.plus, start := 1, end_ := 30,
    exons := [(1, 30)], internal_orfs := [[(SegKind.exon, 1, 30)]],
    selected_internal_orf_index := some 0, finalized := true }

/-- Claim C10: on a finalized transcript with fewer than two internal ORFs,
`split_by_cds` yields exactly the original transcript, unchanged. -/
theorem C10_split_single (t : Transcript) (conf : JsonConf)
    (hf : t.finalized = true) (h2 : Transcript.number_internal_orfs t < 2) :
    Transcript.split_by_cds t conf = .ok [t] := by
  unfold Transcript.split_by_cds
  rw [Transcript.finalize_of_finalized t hf]
  simp only []
  rw [if_pos h2]
  rfl

/-- Witness for `C10_split_single` at the concrete transcript `exC10`. -/
theorem C10_witness :
    exC10.finalized = true ∧ Transcript.number_internal_orfs exC10 < 2 ∧
      Transcript.split_by_cds exC10 {} = .ok [exC10] :=
  ⟨rfl, by decide, C10_split_single exC10 {} rfl (by decide)⟩
